import Mathlib

/-
Verification of the web-scraper fetch-orchestration and normalization engine.

The JavaScript sources are shallowly embedded as Lean definitions:
JS strings become `String` (operated on as `List Char`; JS `substring`
works on UTF-16 units, modelled here as character positions), JS numbers
used as counters/epoch-millis become `Nat` (or `Int` where signs matter),
nullable/absent fields become `Option`, and JS truthiness (`x || y`,
`if (x)`) is modelled explicitly by `strTruthy`/`natTruthy`.
-/

namespace Scraper

/-! ## JS string primitives -/

/-- Whitespace characters removed by `String.prototype.trim`. -/
def wsChar (c : Char) : Bool :=
  c = ' ' || c = '\t' || c = '\n' || c = '\r'

/-- Drop leading and trailing whitespace from a character list (JS `trim`). -/
def trimChars (l : List Char) : List Char :=
  ((l.dropWhile wsChar).reverse.dropWhile wsChar).reverse

/-- JS `s.trim()`. -/
def jsTrim (s : String) : String := ⟨trimChars s.data⟩

/-- JS `s.substring(0, n)`. -/
def jsSubstring (s : String) (n : Nat) : String := ⟨s.data.take n⟩

/-- Characters of `s.split("\n")[0]`: everything before the first line break. -/
def firstLineChars : List Char → List Char
  | [] => []
  | c :: cs => if c = '\n' then [] else c :: firstLineChars cs

/-- JS `s.split("\n")[0]`. -/
def firstLine (s : String) : String := ⟨firstLineChars s.data⟩

/-- ASCII lower-casing of one character (JS `toLowerCase` restricted to the
alphabet the scraper's data actually uses: `\w` plus Hebrew, which has no case). -/
def charLower (c : Char) : Char :=
  match c with
  | 'A' => 'a' | 'B' => 'b' | 'C' => 'c' | 'D' => 'd' | 'E' => 'e' | 'F' => 'f'
  | 'G' => 'g' | 'H' => 'h' | 'I' => 'i' | 'J' => 'j' | 'K' => 'k' | 'L' => 'l'
  | 'M' => 'm' | 'N' => 'n' | 'O' => 'o' | 'P' => 'p' | 'Q' => 'q' | 'R' => 'r'
  | 'S' => 's' | 'T' => 't' | 'U' => 'u' | 'V' => 'v' | 'W' => 'w' | 'X' => 'x'
  | 'Y' => 'y' | 'Z' => 'z'
  | other => other

/-- The 26 lowercase ASCII letters. -/
def lcChars : List Char :=
  ['a', 'b', 'c', 'd', 'e', 'f', 'g', 'h', 'i', 'j', 'k', 'l', 'm',
   'n', 'o', 'p', 'q', 'r', 's', 't', 'u', 'v', 'w', 'x', 'y', 'z']

/-- JS `s.toLowerCase()`. -/
def lowerStr (s : String) : String := ⟨s.data.map charLower⟩

/-- Decimal rendering of a Nat, used for JS template-string interpolation. -/
def natStr (n : Nat) : String := Nat.repr n

/-! ## JS truthiness -/

/-- Truthiness of a possibly-absent JS string (`undefined`, `null` and `""`
are falsy). -/
def strTruthy (o : Option String) : Bool :=
  match o with
  | some s => s ≠ ""
  | none => false

/-- Truthiness of a possibly-absent JS number (`undefined`, `null` and `0`
are falsy). -/
def natTruthy (o : Option Nat) : Bool :=
  match o with
  | some n => n ≠ 0
  | none => false

/-! ## Hashtag extraction

`scrapper.js` line 73: `text.match(/#[\w֐-׿]+/g)`, each match
lower-cased, kept once (insertion-ordered `Set`).  The regex scan is embedded
as a single left-to-right pass over the characters. -/

/-- Characters matched by `[\w֐-׿]` (ASCII word chars plus the
Hebrew block used by `scrapper.js`). -/
def isTagChar (c : Char) : Bool :=
  ('a' ≤ c && c ≤ 'z') || ('A' ≤ c && c ≤ 'Z') || ('0' ≤ c && c ≤ '9') ||
  c = '_' || (0x590 ≤ c.toNat && c.toNat ≤ 0x5ff)

/-- Characters matched by `[A-Za-z0-9_]` (the ASCII-only tag regexes of the
other source variants). -/
def isAsciiTagChar (c : Char) : Bool :=
  ('a' ≤ c && c ≤ 'z') || ('A' ≤ c && c ≤ 'Z') || ('0' ≤ c && c ≤ '9') || c = '_'

/-- One pass of the global regex `/#W+/g` over a character list, where `W` is
the tag-character class `p`.  The accumulator holds the reversed characters of
a run currently being matched (after a `#`), or `none` outside a match.
Returns the matched tags without their leading `#`. -/
def scanTagsP (p : Char → Bool) : List Char → Option (List Char) → List (List Char)
  | [], acc =>
    match acc with
    | some (c :: cs) => [(c :: cs).reverse]
    | _ => []
  | c :: rest, none =>
    if c = '#' then scanTagsP p rest (some []) else scanTagsP p rest none
  | c :: rest, some run =>
    if p c then scanTagsP p rest (some (c :: run))
    else
      (if run = [] then [] else [run.reverse]) ++
      (if c = '#' then scanTagsP p rest (some []) else scanTagsP p rest none)

/-- Insertion-ordered deduplication (the `Set` in `extractHashtags`):
keeps the first occurrence of each element of the list not already in `seen`. -/
def dedupKeep : List String → List String → List String
  | [], _ => []
  | x :: xs, seen =>
    if x ∈ seen then dedupKeep xs seen else x :: dedupKeep xs (x :: seen)

/-- `extractHashtags` of `scrapper.js` (lines 71-79): regex-match hashtags,
lower-case each, deduplicate preserving first-seen order. -/
def extractHashtags (text : String) : List String :=
  dedupKeep ((scanTagsP isTagChar text.data none).map fun l => lowerStr ⟨l⟩) []

/-! ## Title derivation -/

/-- The caption-derived title of `scrapper.js` line 93:
`caption.split("\n")[0] ? caption.split("\n")[0].substring(0, 100).trim() : ""`. -/
def titleFallback (caption : String) : String :=
  if firstLine caption = "" then "" else jsTrim (jsSubstring (firstLine caption) 100)

/-- The caption-derived title of `part_001` line 52:
`(caption.split("\n")[0] || "").substring(0, 140).trim()`. -/
def titleFallback140 (caption : String) : String :=
  jsTrim (jsSubstring (firstLine caption) 140)

/-- The full title rule of `processPosts` (`scrapper.js` lines 91-93):
the provider title when truthy, else the caption-derived fallback. -/
def derivedTitle (providerTitle : Option String) (caption : String) : String :=
  match providerTitle with
  | some t => if t = "" then titleFallback caption else t
  | none => titleFallback caption

/-- Sentence-terminating punctuation, as the spec's TitleDeriver describes it. -/
def sentenceEnd (c : Char) : Bool := c = '.' || c = '!' || c = '?'

/-- Text up to (and including) the first sentence-terminating punctuation mark,
stopping (exclusive) at a line break; first step of the spec's TitleDeriver. -/
def specCutChars : List Char → List Char
  | [] => []
  | c :: cs =>
    if c = '\n' then []
    else if sentenceEnd c then [c]
    else c :: specCutChars cs

/-- Drop a trailing partial word (back off to the preceding word boundary). -/
def specBackoff (l : List Char) : List Char :=
  (l.reverse.dropWhile fun c => c ≠ ' ').reverse

/-- The TitleDeriver algorithm exactly as claim C5 states it (this definition
follows the claim's words, for comparison against the source's
`titleFallback`): cut at the first line break or sentence-terminating
punctuation, trim, truncate to 100 characters, backing off to the preceding
word boundary and appending an ellipsis when truncation would split a word. -/
def specDerivedTitle (caption : String) : String :=
  let cut := trimChars (specCutChars caption.data)
  if cut.length ≤ 100 then ⟨cut⟩ else ⟨specBackoff (cut.take 100) ++ ['…']⟩

/-! ## Data model -/

/-- A raw dataset record as `processPosts` sees it (one JS object; absent or
null fields are `none`). -/
structure RawItem where
  type : Option String
  id : Option String
  shortCode : Option String
  timestamp : Option Nat
  title : Option String
  caption : Option String
  /-- `some l` exactly when `Array.isArray(item.hashtags)` holds. -/
  hashtags : Option (List String)
deriving DecidableEq

/-- The canonical post record built by `processPosts` (`scrapper.js` 99-105). -/
structure Post where
  id : Option String
  title : String
  caption : String
  hashtags : List String
  timestamp : Nat
deriving DecidableEq

/-- A JS `Map` key produced by the dedup-key expression: either a string
(id, shortCode or title) or a number (timestamp).  JS `Map` uses
SameValueZero, so a string never equals a number. -/
inductive DedupKey
  | str (s : String)
  | num (n : Nat)
deriving DecidableEq

/-- `item.caption || ""`. -/
def normCaption (item : RawItem) : String := item.caption.getD ""

/-- The title of one item (`scrapper.js` lines 90-93). -/
def itemTitle (item : RawItem) : String :=
  derivedTitle item.title (normCaption item)

/-- The canonical dedupe key of `scrapper.js` line 96:
`item.id || item.shortCode || item.timestamp || title`. -/
def dedupKey (item : RawItem) (title : String) : DedupKey :=
  if strTruthy item.id then .str (item.id.getD "")
  else if strTruthy item.shortCode then .str (item.shortCode.getD "")
  else if natTruthy item.timestamp then .num (item.timestamp.getD 0)
  else .str title

/-- The dedupe key of `part_002` line 69: `item.id || item.timestamp || title`
(no shortCode step). -/
def dedupKeyP2 (item : RawItem) (title : String) : DedupKey :=
  if strTruthy item.id then .str (item.id.getD "")
  else if natTruthy item.timestamp then .num (item.timestamp.getD 0)
  else .str title

/-- `some` of the string when it is truthy, else `none`. -/
def truthyStr (o : Option String) : Option String :=
  match o with
  | some s => if s = "" then none else some s
  | none => none

/-- `some` of the number when it is truthy, else `none`. -/
def truthyNat (o : Option Nat) : Option Nat :=
  match o with
  | some n => if n = 0 then none else some n
  | none => none

/-- The DedupKey derivation exactly as claim C6 states it (this definition
follows the claim's words, for comparison with the source's key expressions):
the record's id if present, else its shortCode, else its timestamp, else the
derived title, each earlier component falling through when missing. -/
def claimKey (item : RawItem) (title : String) : DedupKey :=
  match truthyStr item.id with
  | some s => .str s
  | none =>
    match truthyStr item.shortCode with
    | some s => .str s
    | none =>
      match truthyNat item.timestamp with
      | some n => .num n
      | none => .str title

/-- The post object stored into the `posts` map (`scrapper.js` lines 99-105).
`now` is the value of `Date.now()`. -/
def mkPost (item : RawItem) (now : Nat) : Post :=
  { id := item.id
    title := itemTitle item
    caption := normCaption item
    hashtags :=
      match item.hashtags with
      | some l => l
      | none => extractHashtags (normCaption item)
    timestamp := if natTruthy item.timestamp then item.timestamp.getD 0 else now }

/-! ## Deduplicator

`processPosts` (`scrapper.js` lines 81-109): walks the items, breaking once
`processed >= maxPosts`, skipping null items, non-`"Post"` items and items
whose key is already in the `Map`, and finally returns the `Map`'s values in
insertion order.  The JS `Map` is modelled as an insertion-ordered association
list; the key derivation is a parameter so that the `part_002` variant (which
omits the shortCode step) is the same function at `dedupKeyP2`. -/

/-- The main loop of `processPosts`: `rest` are the unconsumed items, `p` the
`processed` counter, `acc` the association list backing the JS `Map`. -/
def processLoop (keyF : RawItem → String → DedupKey) (now maxPosts : Nat) :
    List (Option RawItem) → Nat → List (DedupKey × Post) → List (DedupKey × Post)
  | [], _, acc => acc
  | oi :: rest, p, acc =>
    if maxPosts ≤ p then acc
    else
      match oi with
      | none => processLoop keyF now maxPosts rest p acc
      | some item =>
        if item.type = some "Post" then
          if acc.any fun e => e.1 = keyF item (itemTitle item) then
            processLoop keyF now maxPosts rest p acc
          else
            processLoop keyF now maxPosts rest (p + 1)
              (acc ++ [(keyF item (itemTitle item), mkPost item now)])
        else processLoop keyF now maxPosts rest p acc

/-- `processPosts` with an explicit key derivation. -/
def processPostsWith (keyF : RawItem → String → DedupKey)
    (items : List (Option RawItem)) (maxPosts now : Nat) : List Post :=
  (processLoop keyF now maxPosts items 0 []).map Prod.snd

/-- `processPosts` of `scrapper.js`. -/
def processPosts (items : List (Option RawItem)) (maxPosts now : Nat) : List Post :=
  processPostsWith dedupKey items maxPosts now

/-! ## Rate limiter (`scrapper.js` lines 38-66) -/

/-- `CONFIG.RATE_LIMIT_PER_HOUR`. -/
def RATE_LIMIT_PER_HOUR : Nat := 100

/-- One hour in milliseconds, the refill window. -/
def HOUR_MS : Nat := 60 * 60 * 1000

/-- The limiter's mutable closure state: `tokens` and `lastRefill`. -/
structure LimiterState where
  tokens : Nat
  lastRefill : Nat
deriving DecidableEq

/-- `refill()` (lines 43-50): reset the bucket when a full window has elapsed
since `lastRefill`. -/
def refill (s : LimiterState) (now : Nat) : LimiterState :=
  if HOUR_MS ≤ now - s.lastRefill then
    { tokens := RATE_LIMIT_PER_HOUR, lastRefill := now }
  else s

/-- `tryRemoveTokens(n)` (lines 53-60): refill, then consume `n` tokens if
available, returning whether the consume succeeded together with the new
state. -/
def tryRemoveTokens (s : LimiterState) (n : Nat) (now : Nat) : Bool × LimiterState :=
  let s' := refill s now
  if n ≤ s'.tokens then (true, { tokens := s'.tokens - n, lastRefill := s'.lastRefill })
  else (false, s')

/-! ## Cache and the fetch front half (`scrapper.js` lines 114-136) -/

/-- One NodeCache entry: key, cached posts, absolute expiry time. -/
structure CacheEntry where
  key : String
  value : List Post
  expiresAt : Nat
deriving DecidableEq

/-- `cache.get(k)`: the stored value when the key is present and unexpired. -/
def cacheGet (c : List CacheEntry) (k : String) (now : Nat) : Option (List Post) :=
  match c.find? fun e => e.key = k with
  | some e => if now < e.expiresAt then some e.value else none
  | none => none

/-- `CONFIG.MAX_POSTS`. -/
def MAX_POSTS : Nat := 100

/-- `Math.min(Math.max(1, Number(maxPosts) || 10), CONFIG.MAX_POSTS)`
(`scrapper.js` line 119; `0` is falsy, so it falls back to the default 10). -/
def clampLimit (maxPosts : Int) : Nat :=
  (min (max 1 (if maxPosts = 0 then 10 else maxPosts)) 100).toNat

/-- Where `fetchInstagramPosts` ends up before any provider traffic. -/
inductive FetchOutcome
  | invalidUsername
  | cacheHit (posts : List Post)
  | rateLimited
  | providerCall (postsLimit : Nat)
deriving DecidableEq

/-- The front half of `fetchInstagramPosts` (`scrapper.js` lines 114-136):
validate the username, consult the cache, then the rate limiter; returns the
outcome together with the limiter state after the call. -/
def fetchPhase1 (username : String) (maxPosts : Int) (cache : List CacheEntry)
    (limiter : LimiterState) (now : Nat) : FetchOutcome × LimiterState :=
  let normalized := jsTrim username
  if normalized = "" ∨ 50 < normalized.length then (.invalidUsername, limiter)
  else
    let postsLimit := clampLimit maxPosts
    let cacheKey := "instagram:" ++ lowerStr normalized ++ ":" ++ natStr postsLimit
    match cacheGet cache cacheKey now with
    | some posts => (.cacheHit posts, limiter)
    | none =>
      let r := tryRemoveTokens limiter 1 now
      if r.1 then (.providerCall postsLimit, r.2) else (.rateLimited, r.2)

/-- Outcomes of the `part_002` request path. -/
inductive RouteOutcome
  | rateLimited
  | badRequest
  | invalidUsername
  | cachedPosts (posts : List Post)
  | providerCall (postsLimit : Nat)
deriving DecidableEq

/-- `fetchInstagramPosts` of `part_002` (lines 87-106) up to the provider
call: the cache is consulted first (key from the raw username), then the
username is validated, then the provider is called.  There is no rate
limiting inside this function. -/
def fetchP2 (username : String) (maxPosts : Nat) (cache : List CacheEntry)
    (now : Nat) : RouteOutcome :=
  let cacheKey := "instagram:" ++ username ++ ":" ++ natStr maxPosts
  match cacheGet cache cacheKey now with
  | some posts => .cachedPosts posts
  | none =>
    let cleanUsername := lowerStr (jsTrim username)
    if cleanUsername = "" ∨ 30 < cleanUsername.length then .invalidUsername
    else .providerCall (min (max 1 maxPosts) MAX_POSTS)

/-- The `part_002` POST route (lines 210-235): it consumes a rate-limiter
token before anything else — in particular before the cache inside
`fetchInstagramPosts` is ever consulted. -/
def routeP2 (username : String) (maxPosts : Int) (cache : List CacheEntry)
    (limiter : LimiterState) (now : Nat) : RouteOutcome × LimiterState :=
  let r := tryRemoveTokens limiter 1 now
  if r.1 then
    if jsTrim username = "" then (.badRequest, r.2)
    else (fetchP2 username (clampLimit maxPosts) cache now, r.2)
  else (.rateLimited, r.2)

/-! ## Job polling (`part_000` lines 64-70) and the timeout race
(`scrapper.js` lines 169-175) -/

/-- The run statuses `part_000`'s loop treats as terminal. -/
def terminalStatuses : List String := ["SUCCEEDED", "FAILED", "ABORTED", "TIMED-OUT"]

/-- The `while (true)` poll loop of `part_000`: `statuses k` is the status the
`k`-th poll of the provider reports.  `fuel` bounds how many polls we unfold;
the JS loop itself has no bound of any kind, so `none` means the loop is still
running after `fuel` polls. -/
def pollLoop (statuses : Nat → String) : Nat → Nat → Option String
  | 0, _ => none
  | fuel + 1, k =>
    if statuses k ∈ terminalStatuses then some (statuses k)
    else pollLoop statuses fuel (k + 1)

/-- The poll loop started at the first poll. -/
def pollRun (statuses : Nat → String) (fuel : Nat) : Option String :=
  pollLoop statuses fuel 0

/-- `CONFIG.ACTOR_TIMEOUT` of `scrapper.js` (30 s). -/
def ACTOR_TIMEOUT : Nat := 30000

/-- Result of `Promise.race([actorPromise, timeoutPromise])` in `scrapper.js`
(lines 169-175).  `actorFinish` is the wall-clock time at which the actor call
settles, `none` if it never does; past the 30 s guard the race rejects and the
catch block maps it to a TIMEOUT error. -/
inductive RaceResult
  | run (t : Nat)
  | timeoutErr
deriving DecidableEq

/-- The race: the actor's settlement wins only if it beats the 30 s timer. -/
def raceActorCall (actorFinish : Option Nat) : RaceResult :=
  match actorFinish with
  | some t => if t < ACTOR_TIMEOUT then .run t else .timeoutErr
  | none => .timeoutErr

/-! ## HTML post extraction (`part_004` lines 64-94, `part_005` lines 68-93)

The regex search plus `JSON.parse` of the embedded blob is abstracted as a
`ParseInput` oracle: `noMatch` is the regex finding nothing, `badJson` is
`JSON.parse` throwing, `notArray` is the parsed blob not holding an edge
array (in `part_004` the subsequent `forEach` throws and is caught; in
`part_005` the explicit `Array.isArray` guard skips the loop), and
`parsed edges` is a successful parse down to the timeline-media edge list. -/

/-- One timeline-media edge node, reduced to the fields the extractors read. -/
structure IGNode where
  caption : Option String
  shortcode : Option String
deriving DecidableEq

/-- One extracted raw post of the Zyte variants. -/
structure HtmlPost where
  title : String
  url : String
  caption : String
  hashtags : List String
deriving DecidableEq

/-- What the embedded-JSON lookup can yield. -/
inductive ParseInput
  | noMatch
  | badJson
  | notArray
  | parsed (edges : List IGNode)
deriving DecidableEq

/-- Hashtags of the Zyte variants: `caption.match(/#([A-Za-z0-9_]+)/g)`,
`'#'` stripped, neither lower-cased nor deduplicated. -/
def asciiTags (caption : String) : List String :=
  (scanTagsP isAsciiTagChar caption.data none).map fun l => ⟨l⟩

/-- One post built inside the `edges.forEach` of `part_004`/`part_005`
(`idx` is the 0-based index; empty captions get the positional label). -/
def mkHtmlPost (node : IGNode) (idx : Nat) : HtmlPost :=
  let caption := node.caption.getD ""
  { title :=
      if caption = "" then "Post " ++ natStr (idx + 1)
      else jsTrim (jsSubstring (firstLine caption) 100)
    url :=
      if strTruthy node.shortcode then
        "https://www.instagram.com/p/" ++ node.shortcode.getD "" ++ "/"
      else ""
    caption := caption
    hashtags := asciiTags caption }

/-- The body of the `try` block in `part_004`'s parser: `ok` is reaching the
`forEach` with an edge list, `error` is a thrown exception. -/
def tryParse004 (input : ParseInput) : Except String (List IGNode) :=
  match input with
  | .noMatch => .ok []
  | .badJson => .error "JSON.parse threw"
  | .notArray => .error "edges.forEach is not a function"
  | .parsed edges => .ok edges

/-- `scrapeInstagramPosts` of `part_004` from the parse on: the `catch`
swallows any throw, leaving the `posts` array as accumulated (empty, since
both possible throws happen before the first push). -/
def scrapePosts004 (input : ParseInput) : List HtmlPost :=
  match tryParse004 input with
  | .error _ => []
  | .ok edges => edges.enum.map fun e => mkHtmlPost e.2 e.1

/-- The body of the `try` block in `part_005`'s parser: the missing-pattern
and non-array cases are guarded explicitly there and push nothing. -/
def tryParse005 (input : ParseInput) : Except String (List IGNode) :=
  match input with
  | .noMatch => .ok []
  | .badJson => .error "JSON.parse threw"
  | .notArray => .ok []
  | .parsed edges => .ok edges

/-- `scrapeInstagramPosts` of `part_005` from the parse on. -/
def scrapePosts005 (input : ParseInput) : List HtmlPost :=
  match tryParse005 input with
  | .error _ => []
  | .ok edges => edges.enum.map fun e => mkHtmlPost e.2 e.1

/-! ## Concrete records used by witnesses and counterexamples -/

/-- A record with only a shortCode and a timestamp (no id): the two key
expressions disagree on it. -/
def cexItemC6 : RawItem :=
  { type := some "Post", id := none, shortCode := some "abc"
    timestamp := some 5, title := none, caption := some "", hashtags := none }

/-- A record whose provider-supplied hashtag list holds a case-insensitive
duplicate. -/
def cexItemC7 : RawItem :=
  { type := some "Post", id := some "pid", shortCode := none
    timestamp := none, title := none, caption := some ""
    hashtags := some ["A", "a"] }

/-- A keyless record with an empty caption. -/
def recEmptyCaption : RawItem :=
  { type := some "Post", id := none, shortCode := none
    timestamp := none, title := none, caption := some "", hashtags := none }

/-- A keyless record whose caption starts with a line break: its first line —
hence its derived title — is also empty, but its caption and hashtags are not. -/
def recLateCaption : RawItem :=
  { type := some "Post", id := none, shortCode := none
    timestamp := none, title := none, caption := some "\n#different tags"
    hashtags := none }

/-- A cached post list used by the cache-hit scenarios. -/
def demoPosts : List Post :=
  [{ id := some "p1", title := "hello", caption := "hello", hashtags := [], timestamp := 7 }]

/-- A cache holding `demoPosts` for handle `nasa`, limit 5, unexpired until
time 2000. -/
def demoCache : List CacheEntry :=
  [{ key := "instagram:nasa:5", value := demoPosts, expiresAt := 2000 }]

/-- A caption 120 characters long with no line break. -/
def longCapC5 : String := ⟨List.replicate 120 'a'⟩

/-! ## C1: termination of the poll phase -/

theorem pollLoop_const_running (fuel k : Nat) :
    pollLoop (fun _ => "RUNNING") fuel k = none := by
  induction fuel generalizing k with
  | zero => rfl
  | succ f ih =>
    rw [pollLoop, if_neg (by decide)]
    exact ih (k + 1)

theorem pollLoop_some_mem (statuses : Nat → String) :
    ∀ fuel k s, pollLoop statuses fuel k = some s → ∃ j, statuses j ∈ terminalStatuses := by
  intro fuel
  induction fuel with
  | zero => intro k s h; exact Option.noConfusion h
  | succ f ih =>
    intro k s h
    rw [pollLoop] at h
    by_cases hc : statuses k ∈ terminalStatuses
    · exact ⟨k, hc⟩
    · rw [if_neg hc] at h
      exact ih (k + 1) s h

theorem pollLoop_reaches (statuses : Nat → String) :
    ∀ fuel k, (∃ j, j < fuel ∧ statuses (k + j) ∈ terminalStatuses) →
      ∃ s, pollLoop statuses fuel k = some s := by
  intro fuel
  induction fuel with
  | zero => rintro k ⟨j, hj, _⟩; omega
  | succ f ih =>
    rintro k ⟨j, hj, hterm⟩
    rw [pollLoop]
    by_cases hc : statuses k ∈ terminalStatuses
    · rw [if_pos hc]; exact ⟨_, rfl⟩
    · rw [if_neg hc]
      apply ih (k + 1)
      rcases j with _ | j'
      · exact absurd (by simpa using hterm) hc
      · exact ⟨j', by omega, by rw [show k + 1 + j' = k + (j' + 1) from by omega]; exact hterm⟩

/-- C1 (amended): the explicit poll loop of `part_000` has no wall-clock
budget — it terminates exactly when the provider eventually reports a
terminal status, so a run that never leaves RUNNING is polled forever; only
the `scrapper.js` variant bounds its wait, by racing the actor call against a
30-second timer whose expiry the catch block surfaces as a TIMEOUT error. -/
theorem pollRun_terminates_iff_terminal (statuses : Nat → String) :
    ((∃ fuel s, pollRun statuses fuel = some s) ↔ ∃ k, statuses k ∈ terminalStatuses) ∧
    raceActorCall none = RaceResult.timeoutErr := by
  constructor
  · constructor
    · rintro ⟨fuel, s, h⟩
      exact pollLoop_some_mem statuses fuel 0 s h
    · rintro ⟨k, hk⟩
      obtain ⟨s, hs⟩ := pollLoop_reaches statuses (k + 1) 0 ⟨k, by omega, by simpa using hk⟩
      exact ⟨k + 1, s, hs⟩
  · rfl

/-- C1 is false as stated: on a run whose reported status is RUNNING at every
poll, `part_000`'s loop never reaches a terminal state and never stops — there
is no overall wall-clock budget and no TIMED_OUT outcome. -/
theorem pollRun_constant_running_never_terminates :
    ¬ ∃ fuel s, pollRun (fun _ => "RUNNING") fuel = some s := by
  rintro ⟨fuel, s, h⟩
  rw [pollRun, pollLoop_const_running] at h
  exact Option.noConfusion h

/-! ## C3: the rate limiter contract -/

/-- C3 (confirmed): `tryRemoveTokens(n)` refills first (a no-op within the
hour window), succeeds and decrements by exactly `n` precisely when the
refilled bucket holds at least `n` tokens, and otherwise fails leaving the
refilled state untouched; an exhausted bucket rejects `tryRemoveTokens(1)`
until a full window has elapsed since `lastRefill`, after which the call
succeeds again out of a bucket reset to capacity. -/
theorem tryRemoveTokens_contract (s : LimiterState) (n now : Nat) :
    (n ≤ (refill s now).tokens →
      tryRemoveTokens s n now =
        (true, { tokens := (refill s now).tokens - n, lastRefill := (refill s now).lastRefill })) ∧
    ((refill s now).tokens < n → tryRemoveTokens s n now = (false, refill s now)) ∧
    (now - s.lastRefill < HOUR_MS → refill s now = s) ∧
    (s.tokens = 0 → now - s.lastRefill < HOUR_MS → tryRemoveTokens s 1 now = (false, s)) ∧
    (s.tokens = 0 → HOUR_MS ≤ now - s.lastRefill →
      tryRemoveTokens s 1 now = (true, { tokens := RATE_LIMIT_PER_HOUR - 1, lastRefill := now })) := by
  have hnoop : now - s.lastRefill < HOUR_MS → refill s now = s := by
    intro h; rw [refill, if_neg (by omega)]
  refine ⟨?_, ?_, hnoop, ?_, ?_⟩
  · intro h; rw [tryRemoveTokens, if_pos h]
  · intro h; rw [tryRemoveTokens, if_neg (by omega)]
  · intro h0 hlt
    rw [tryRemoveTokens, hnoop hlt, if_neg (by omega)]
  · intro h0 hge
    rw [tryRemoveTokens, refill, if_pos hge]
    rfl

/-- Witness for C3: an exhausted bucket refilled exactly one window after its
`lastRefill` grants a token again, reset to capacity minus the one consumed. -/
theorem tryRemoveTokens_contract_witness :
    tryRemoveTokens ⟨0, 0⟩ 1 HOUR_MS =
      (true, { tokens := RATE_LIMIT_PER_HOUR - 1, lastRefill := HOUR_MS }) :=
  (tryRemoveTokens_contract ⟨0, 0⟩ 1 HOUR_MS).2.2.2.2 rfl (by decide)

/-! ## C9: parse failures degrade to an empty result -/

/-- C9 (confirmed): both HTML extractors return the empty post list — rather
than propagating an error — when the embedded-state regex finds no match,
when `JSON.parse` throws on the matched blob, and when the parsed blob holds
no edge array; the `catch` around the parse swallows every throw with the
`posts` accumulator still empty. -/
theorem scrape_parse_failures_yield_empty :
    scrapePosts004 ParseInput.noMatch = [] ∧ scrapePosts004 ParseInput.badJson = [] ∧
    scrapePosts004 ParseInput.notArray = [] ∧ scrapePosts005 ParseInput.noMatch = [] ∧
    scrapePosts005 ParseInput.badJson = [] ∧ scrapePosts005 ParseInput.notArray = [] :=
  ⟨rfl, rfl, rfl, rfl, rfl, rfl⟩

/-! ## C5: the derived title -/

theorem trimChars_sublist (l : List Char) : (trimChars l).Sublist l := by
  have h1 : (l.dropWhile wsChar).Sublist l := List.dropWhile_sublist _
  have h2 : ((l.dropWhile wsChar).reverse.dropWhile wsChar).Sublist (l.dropWhile wsChar).reverse :=
    List.dropWhile_sublist _
  have h3 := h2.reverse
  rw [List.reverse_reverse] at h3
  exact h3.trans h1

theorem firstLineChars_sublist (l : List Char) : (firstLineChars l).Sublist l := by
  induction l with
  | nil => exact List.Sublist.refl _
  | cons c cs ih =>
    rw [firstLineChars]
    by_cases h : c = '\n'
    · rw [if_pos h]; exact List.nil_sublist _
    · rw [if_neg h]; exact ih.cons₂ c

theorem titleChars_sublist (s : String) (n : Nat) :
    (trimChars ((firstLineChars s.data).take n)).Sublist s.data :=
  ((trimChars_sublist _).trans (List.take_sublist _ _)).trans (firstLineChars_sublist _)

theorem titleChars_length (s : String) (n : Nat) :
    (trimChars ((firstLineChars s.data).take n)).length ≤ n :=
  le_trans (trimChars_sublist _).length_le (List.length_take_le n _)

/-- C5 (amended): the caption-derived title is the caption's first line,
truncated to the length bound and then trimmed — there is no cut at
sentence-terminating punctuation, no word-boundary backoff and no ellipsis
marker (every title character comes from the caption, in order); the bound is
100 characters in `scrapper.js`/`part_002` and 140 in `part_001`. -/
theorem titleFallback_first_line_bounded (caption : String) :
    ((titleFallback caption).data).Sublist caption.data ∧ (titleFallback caption).length ≤ 100 ∧
    ((titleFallback140 caption).data).Sublist caption.data ∧ (titleFallback140 caption).length ≤ 140 := by
  refine ⟨?_, ?_, titleChars_sublist caption 140, titleChars_length caption 140⟩
  · rw [titleFallback]
    by_cases h : firstLine caption = ""
    · rw [if_pos h]; exact List.nil_sublist _
    · rw [if_neg h]; exact titleChars_sublist caption 100
  · rw [titleFallback]
    by_cases h : firstLine caption = ""
    · rw [if_pos h]; decide
    · rw [if_neg h]; exact titleChars_length caption 100

/-- C5 is false as stated: on the caption `"Hi. Bye"` the code keeps the text
past the first sentence-terminating punctuation, where the claimed algorithm
stops at it; and `part_001`'s 140-character bound lets a 120-character
first line through unshortened, past the claimed 100-character limit. -/
theorem titleFallback_ignores_spec_algorithm :
    titleFallback "Hi. Bye" = "Hi. Bye" ∧ specDerivedTitle "Hi. Bye" = "Hi." ∧
    titleFallback "Hi. Bye" ≠ specDerivedTitle "Hi. Bye" ∧
    (titleFallback140 longCapC5).length = 120 := by decide

/-! ## C6: the dedupe key priority -/

/-- C6 (amended): `scrapper.js` derives the dedupe key exactly in the claimed
priority order — id if present, else shortCode, else timestamp, else the
derived title (the lowercase `shortcode` spelling is folded into `shortCode`
upstream, by the actor's output-mapping function); `part_002`, however, omits
the shortCode step entirely, deriving id, else timestamp, else title. -/
theorem dedupKey_priority_order (item : RawItem) (title : String) :
    dedupKey item title = claimKey item title := by
  rw [dedupKey, claimKey]
  rcases item.id with _ | s
  all_goals rcases item.shortCode with _ | s2
  all_goals rcases item.timestamp with _ | n
  all_goals simp only [strTruthy, natTruthy, truthyStr, truthyNat]
  all_goals try by_cases hs : s = ""
  all_goals try by_cases hs2 : s2 = ""
  all_goals try by_cases hn : n = 0
  all_goals simp_all

/-- C6 is false on `part_002`: a record carrying a shortCode (and a timestamp
but no id) keys on its timestamp there, where the claimed priority order keys
on the shortCode. -/
theorem dedupKeyP2_skips_shortCode_step :
    dedupKeyP2 cexItemC6 "t" = DedupKey.num 5 ∧ claimKey cexItemC6 "t" = DedupKey.str "abc" ∧
    dedupKeyP2 cexItemC6 "t" ≠ claimKey cexItemC6 "t" := by decide

/-! ## C8: non-positive limits are clamped, not rejected -/

/-- C8 (amended): a non-positive requested limit is never rejected — the fetch
silently clamps it into the range 1 to `MAX_POSTS` (zero falls back to the
default of 10, negatives are raised to 1) and proceeds; the validation error
depends solely on the trimmed username being empty or longer than 50. -/
theorem clampLimit_validation_independent (m : Int) (username : String)
    (cache : List CacheEntry) (limiter : LimiterState) (now : Nat) :
    1 ≤ clampLimit m ∧ clampLimit m ≤ MAX_POSTS ∧
    ((fetchPhase1 username m cache limiter now).1 = FetchOutcome.invalidUsername ↔
      (jsTrim username = "" ∨ 50 < (jsTrim username).length)) := by
  refine ⟨?_, ?_, ?_⟩
  · rw [clampLimit]
    by_cases hm : m = 0
    · rw [if_pos hm]; decide
    · rw [if_neg hm]; omega
  · rw [clampLimit, MAX_POSTS]
    by_cases hm : m = 0
    · rw [if_pos hm]; decide
    · rw [if_neg hm]; omega
  · by_cases h : jsTrim username = "" ∨ 50 < (jsTrim username).length
    · simp only [fetchPhase1]
      rw [if_pos h]
      simpa using h
    · simp only [fetchPhase1]
      rw [if_neg h]
      constructor
      · intro hc
        exfalso
        revert hc
        split
        · intro hc; exact FetchOutcome.noConfusion hc
        · split
          · intro hc; exact FetchOutcome.noConfusion hc
          · intro hc; exact FetchOutcome.noConfusion hc
      · intro hcon; exact absurd hcon h

/-- C8 is false as stated: requesting `maxPosts = -5` for a valid handle does
not produce a validation failure — the limit is clamped to 1, a token is
consumed, and the fetch proceeds to the provider call. -/
theorem fetch_negative_limit_proceeds :
    fetchPhase1 "nasa" (-5) [] ⟨100, 0⟩ 0 = (FetchOutcome.providerCall 1, ⟨99, 0⟩) ∧
    FetchOutcome.providerCall 1 ≠ FetchOutcome.invalidUsername := by decide

/-! ## C4: cache hits and the rate limiter -/

/-- C4 (amended): in `scrapper.js` the cache is consulted before the rate
limiter, so a request whose cache key is present and unexpired returns the
cached posts with the limiter state untouched — even when the bucket is
exhausted; in the `part_002` variant, however, the route consumes a token
before the fetch's cache lookup runs, so there a cached request is rejected
once the bucket is empty. -/
theorem fetchPhase1_cache_hit_exempt (username : String) (maxPosts : Int)
    (cache : List CacheEntry) (limiter : LimiterState) (now : Nat) (posts : List Post)
    (hvalid : ¬(jsTrim username = "" ∨ 50 < (jsTrim username).length))
    (hhit : cacheGet cache
        ("instagram:" ++ lowerStr (jsTrim username) ++ ":" ++ natStr (clampLimit maxPosts)) now =
      some posts) :
    fetchPhase1 username maxPosts cache limiter now = (FetchOutcome.cacheHit posts, limiter) := by
  simp only [fetchPhase1]
  rw [if_neg hvalid, hhit]

/-- Witness for C4: with the bucket fully exhausted (zero tokens, window not
elapsed), a cached request for `nasa` still returns the cached posts and
leaves the limiter at zero tokens. -/
theorem fetchPhase1_cache_hit_exempt_witness :
    fetchPhase1 "nasa" 5 demoCache ⟨0, 500⟩ 1000 = (FetchOutcome.cacheHit demoPosts, ⟨0, 500⟩) :=
  fetchPhase1_cache_hit_exempt "nasa" 5 demoCache ⟨0, 500⟩ 1000 demoPosts (by decide) (by decide)

/-- C4 is false on `part_002`: the same cached entry is present and unexpired,
yet with the bucket exhausted the route rejects the request with a rate-limit
error instead of returning the cached posts. -/
theorem routeP2_cache_hit_rate_limited :
    cacheGet demoCache "instagram:nasa:5" 1000 = some demoPosts ∧
    routeP2 "nasa" 5 demoCache ⟨0, 0⟩ 1000 = (RouteOutcome.rateLimited, ⟨0, 0⟩) ∧
    RouteOutcome.rateLimited ≠ RouteOutcome.cachedPosts demoPosts := by decide

/-! ## C7: case-insensitive uniqueness of hashtags -/

theorem charLower_cases (c : Char) : charLower c = c ∨ charLower c ∈ lcChars := by
  unfold charLower
  split
  all_goals first
    | (right; decide)
    | (left; rfl)

theorem charLower_fixes_lc : ∀ c ∈ lcChars, charLower c = c := by decide

theorem charLower_idem (c : Char) : charLower (charLower c) = charLower c := by
  rcases charLower_cases c with h | h
  · rw [h]; exact h
  · exact charLower_fixes_lc _ h

theorem lowerStr_idem (s : String) : lowerStr (lowerStr s) = lowerStr s := by
  rcases s with ⟨l⟩
  simp only [lowerStr, List.map_map]
  congr 1
  exact List.map_congr_left fun c _ => charLower_idem c

theorem dedupKeep_subset : ∀ (l seen : List String) (x : String),
    x ∈ dedupKeep l seen → x ∈ l ∧ x ∉ seen := by
  intro l
  induction l with
  | nil => intro seen x h; rw [dedupKeep] at h; exact absurd h (List.not_mem_nil x)
  | cons y ys ih =>
    intro seen x h
    rw [dedupKeep] at h
    by_cases hy : y ∈ seen
    · rw [if_pos hy] at h
      obtain ⟨h1, h2⟩ := ih seen x h
      exact ⟨List.mem_cons_of_mem _ h1, h2⟩
    · rw [if_neg hy] at h
      rcases List.mem_cons.mp h with rfl | h'
      · exact ⟨List.mem_cons_self _ _, hy⟩
      · obtain ⟨h1, h2⟩ := ih (y :: seen) x h'
        exact ⟨List.mem_cons_of_mem _ h1, fun hx => h2 (List.mem_cons_of_mem _ hx)⟩

theorem dedupKeep_ci_pairwise : ∀ (l seen : List String),
    (∀ x ∈ l, lowerStr x = x) →
    (dedupKeep l seen).Pairwise fun a b => lowerStr a ≠ lowerStr b := by
  intro l
  induction l with
  | nil => intro seen _; rw [dedupKeep]; exact List.Pairwise.nil
  | cons y ys ih =>
    intro seen hall
    rw [dedupKeep]
    by_cases hy : y ∈ seen
    · rw [if_pos hy]
      exact ih seen fun x hx => hall x (List.mem_cons_of_mem _ hx)
    · rw [if_neg hy]
      refine List.Pairwise.cons ?_ (ih (y :: seen) fun x hx => hall x (List.mem_cons_of_mem _ hx))
      intro b hb
      obtain ⟨hb1, hb2⟩ := dedupKeep_subset ys (y :: seen) b hb
      rw [hall b (List.mem_cons_of_mem _ hb1), hall y (List.mem_cons_self _ _)]
      exact fun hcon => hb2 (by rw [← hcon]; exact List.mem_cons_self _ _)

/-- C7 (amended): hashtags derived from the caption by `extractHashtags` are
pairwise distinct under case-insensitive comparison (they are lower-cased and
then deduplicated); but when a provider-supplied tag list is present it is
used verbatim — neither deduplicated nor re-cased — so such a Post can carry
case-insensitive duplicate hashtags. -/
theorem extractHashtags_ci_nodup (text : String) :
    (extractHashtags text).Pairwise fun a b => lowerStr a ≠ lowerStr b := by
  rw [extractHashtags]
  apply dedupKeep_ci_pairwise
  intro x hx
  obtain ⟨l, _, rfl⟩ := List.mem_map.mp hx
  exact lowerStr_idem _

/-- C7 is false as stated: a record whose provider-supplied hashtag list is
`["A", "a"]` is normalized into a Post carrying exactly that list, whose two
entries are equal under case-insensitive comparison. -/
theorem processPosts_provider_hashtags_duplicate :
    processPosts [some cexItemC7] 5 0 =
      [{ id := some "pid", title := "", caption := "", hashtags := ["A", "a"], timestamp := 0 }] ∧
    ¬ (["A", "a"] : List String).Pairwise fun a b => lowerStr a ≠ lowerStr b := by
  constructor
  · decide
  · intro h
    exact ((List.pairwise_cons.mp h).1 "a" (List.mem_cons_self _ _)) (by decide)

/-! ## C2: the deduplicator contract -/

theorem processLoop_break (keyF : RawItem → String → DedupKey) (now N : Nat)
    (l : List (Option RawItem)) (p : Nat) (acc : List (DedupKey × Post)) (h : N ≤ p) :
    processLoop keyF now N l p acc = acc := by
  cases l with
  | nil => rfl
  | cons oi rest => cases oi <;> rw [processLoop, if_pos h]

theorem processLoop_length (keyF : RawItem → String → DedupKey) (now N : Nat) :
    ∀ (l : List (Option RawItem)) (p : Nat) (acc : List (DedupKey × Post)),
      acc.length = p → p ≤ N → (processLoop keyF now N l p acc).length ≤ N := by
  intro l
  induction l with
  | nil => intro p acc hlen hle; rw [processLoop]; omega
  | cons oi rest ih =>
    intro p acc hlen hle
    by_cases hb : N ≤ p
    · rw [processLoop_break keyF now N _ p acc hb]; omega
    · cases oi with
      | none => rw [processLoop, if_neg hb]; exact ih p acc hlen hle
      | some item =>
        rw [processLoop, if_neg hb]
        by_cases ht : item.type = some "Post"
        · rw [if_pos ht]
          by_cases hdup : (acc.any fun e => e.1 = keyF item (itemTitle item)) = true
          · rw [if_pos hdup]; exact ih p acc hlen hle
          · rw [if_neg hdup]
            exact ih (p + 1) _ (by simp [hlen]) (by omega)
        · rw [if_neg ht]; exact ih p acc hlen hle

theorem processLoop_nodup (keyF : RawItem → String → DedupKey) (now N : Nat) :
    ∀ (l : List (Option RawItem)) (p : Nat) (acc : List (DedupKey × Post)),
      (acc.map Prod.fst).Nodup → ((processLoop keyF now N l p acc).map Prod.fst).Nodup := by
  intro l
  induction l with
  | nil => intro p acc h; rw [processLoop]; exact h
  | cons oi rest ih =>
    intro p acc h
    by_cases hb : N ≤ p
    · rw [processLoop_break keyF now N _ p acc hb]; exact h
    · cases oi with
      | none => rw [processLoop, if_neg hb]; exact ih p acc h
      | some item =>
        rw [processLoop, if_neg hb]
        by_cases ht : item.type = some "Post"
        · rw [if_pos ht]
          by_cases hdup : (acc.any fun e => e.1 = keyF item (itemTitle item)) = true
          · rw [if_pos hdup]; exact ih p acc h
          · rw [if_neg hdup]
            apply ih (p + 1)
            have hk : keyF item (itemTitle item) ∉ acc.map Prod.fst := by
              intro hmem
              obtain ⟨e, he, heq⟩ := List.mem_map.mp hmem
              exact hdup (List.any_eq_true.mpr ⟨e, he, by simp [heq]⟩)
            rw [List.map_append]
            refine List.Nodup.append h (by simp) ?_
            intro a ha hb2
            rcases List.mem_singleton.mp (by simpa using hb2) with rfl
            exact hk ha
        · rw [if_neg ht]; exact ih p acc h

theorem processLoop_factor (keyF : RawItem → String → DedupKey) (now N : Nat) :
    ∀ (l : List (Option RawItem)) (p : Nat) (acc : List (DedupKey × Post)),
      ∃ t, processLoop keyF now N l p acc = acc ++ t ∧
        t.Sublist ((l.filterMap id).map fun i => (keyF i (itemTitle i), mkPost i now)) := by
  intro l
  induction l with
  | nil => intro p acc; exact ⟨[], by rw [processLoop]; simp, List.nil_sublist _⟩
  | cons oi rest ih =>
    intro p acc
    by_cases hb : N ≤ p
    · exact ⟨[], by rw [processLoop_break keyF now N _ p acc hb]; simp, List.nil_sublist _⟩
    · cases oi with
      | none =>
        obtain ⟨t, h1, h2⟩ := ih p acc
        exact ⟨t, by rw [processLoop, if_neg hb]; exact h1, by simpa using h2⟩
      | some item =>
        by_cases ht : item.type = some "Post"
        · by_cases hdup : (acc.any fun e => e.1 = keyF item (itemTitle item)) = true
          · obtain ⟨t, h1, h2⟩ := ih p acc
            refine ⟨t, by rw [processLoop, if_neg hb, if_pos ht, if_pos hdup]; exact h1, ?_⟩
            simpa using List.Sublist.cons _ h2
          · obtain ⟨t, h1, h2⟩ := ih (p + 1) (acc ++ [(keyF item (itemTitle item), mkPost item now)])
            refine ⟨(keyF item (itemTitle item), mkPost item now) :: t, ?_, ?_⟩
            · rw [processLoop, if_neg hb, if_pos ht, if_neg hdup, h1, List.append_assoc]
              rfl
            · simpa using
                List.Sublist.cons₂ (keyF item (itemTitle item), mkPost item now) h2
        · obtain ⟨t, h1, h2⟩ := ih p acc
          refine ⟨t, by rw [processLoop, if_neg hb, if_neg ht]; exact h1, ?_⟩
          simpa using List.Sublist.cons _ h2

theorem processLoop_earlystop (keyF : RawItem → String → DedupKey) (now N : Nat) :
    ∀ (l1 l2 : List (Option RawItem)) (p : Nat) (acc : List (DedupKey × Post)),
      acc.length = p → (processLoop keyF now N l1 p acc).length = N →
      processLoop keyF now N (l1 ++ l2) p acc = processLoop keyF now N l1 p acc := by
  intro l1
  induction l1 with
  | nil =>
    intro l2 p acc hlen hN
    rw [processLoop] at hN
    rw [List.nil_append, processLoop, processLoop_break keyF now N l2 p acc (by omega)]
  | cons oi rest ih =>
    intro l2 p acc hlen hN
    by_cases hb : N ≤ p
    · rw [List.cons_append, processLoop_break keyF now N _ p acc hb,
        processLoop_break keyF now N _ p acc hb]
    · cases oi with
      | none =>
        have e1 : processLoop keyF now N ((none :: rest) ++ l2) p acc =
            processLoop keyF now N (rest ++ l2) p acc := by
          rw [List.cons_append, processLoop, if_neg hb]
        have e2 : processLoop keyF now N (none :: rest) p acc =
            processLoop keyF now N rest p acc := by
          rw [processLoop, if_neg hb]
        rw [e2] at hN
        rw [e1, e2]
        exact ih l2 p acc hlen hN
      | some item =>
        by_cases ht : item.type = some "Post"
        · by_cases hdup : (acc.any fun e => e.1 = keyF item (itemTitle item)) = true
          · have e1 : processLoop keyF now N ((some item :: rest) ++ l2) p acc =
                processLoop keyF now N (rest ++ l2) p acc := by
              rw [List.cons_append, processLoop, if_neg hb, if_pos ht, if_pos hdup]
            have e2 : processLoop keyF now N (some item :: rest) p acc =
                processLoop keyF now N rest p acc := by
              rw [processLoop, if_neg hb, if_pos ht, if_pos hdup]
            rw [e2] at hN
            rw [e1, e2]
            exact ih l2 p acc hlen hN
          · have e1 : processLoop keyF now N ((some item :: rest) ++ l2) p acc =
                processLoop keyF now N (rest ++ l2) (p + 1)
                  (acc ++ [(keyF item (itemTitle item), mkPost item now)]) := by
              rw [List.cons_append, processLoop, if_neg hb, if_pos ht, if_neg hdup]
            have e2 : processLoop keyF now N (some item :: rest) p acc =
                processLoop keyF now N rest (p + 1)
                  (acc ++ [(keyF item (itemTitle item), mkPost item now)]) := by
              rw [processLoop, if_neg hb, if_pos ht, if_neg hdup]
            rw [e2] at hN
            rw [e1, e2]
            exact ih l2 (p + 1) _ (by simp [hlen]) hN
        · have e1 : processLoop keyF now N ((some item :: rest) ++ l2) p acc =
              processLoop keyF now N (rest ++ l2) p acc := by
            rw [List.cons_append, processLoop, if_neg hb, if_neg ht]
          have e2 : processLoop keyF now N (some item :: rest) p acc =
              processLoop keyF now N rest p acc := by
            rw [processLoop, if_neg hb, if_neg ht]
          rw [e2] at hN
          rw [e1, e2]
          exact ih l2 p acc hlen hN

/-- C2 (confirmed, for either dedupe-key derivation): `processPosts` returns
at most `maxPosts` posts, the keys of its backing map are pairwise distinct,
the output is a subsequence of the normalized input records (first-seen order
is preserved), and once the output already holds `maxPosts` accepted posts,
appending further input records cannot change it — they are never consumed. -/
theorem processPosts_dedup_contract (keyF : RawItem → String → DedupKey)
    (items extra : List (Option RawItem)) (N now : Nat) :
    (processPostsWith keyF items N now).length ≤ N ∧
    ((processLoop keyF now N items 0 []).map Prod.fst).Nodup ∧
    (processPostsWith keyF items N now).Sublist ((items.filterMap id).map fun i => mkPost i now) ∧
    (processPostsWith keyF (items ++ extra) N now = processPostsWith keyF items N now ∨
      (processPostsWith keyF items N now).length < N) := by
  have hlen : (processPostsWith keyF items N now).length ≤ N := by
    rw [processPostsWith, List.length_map]
    exact processLoop_length keyF now N items 0 [] rfl (Nat.zero_le N)
  refine ⟨hlen, processLoop_nodup keyF now N items 0 [] (by simp), ?_, ?_⟩
  · obtain ⟨t, h1, h2⟩ := processLoop_factor keyF now N items 0 []
    rw [processPostsWith, h1, List.nil_append]
    have h3 := h2.map Prod.snd
    rw [List.map_map] at h3
    exact h3
  · by_cases hfull : (processPostsWith keyF items N now).length = N
    · left
      rw [processPostsWith, processPostsWith,
        processLoop_earlystop keyF now N items extra 0 [] rfl
          (by rw [processPostsWith, List.length_map] at hfull; exact hfull)]
    · right; omega

/-! ## C10: title-only records collapse -/

theorem dedupKey_falsy (item : RawItem) (t : String)
    (hid : strTruthy item.id = false) (hsc : strTruthy item.shortCode = false)
    (hts : natTruthy item.timestamp = false) :
    dedupKey item t = DedupKey.str t := by
  rw [dedupKey, hid, hsc, hts]
  rfl

/-- C10 (confirmed): two records that both lack a truthy id, shortCode and
timestamp key on their derived titles, so when those titles coincide (for
example because the captions share their first line, or both captions are
empty, giving the empty title) only the first record is returned — even if
the full captions and hashtags differ. -/
theorem processPosts_title_collision_collapses (r1 r2 : RawItem) (N now : Nat)
    (h1 : r1.type = some "Post") (h2 : r2.type = some "Post")
    (hid1 : strTruthy r1.id = false) (hsc1 : strTruthy r1.shortCode = false)
    (hts1 : natTruthy r1.timestamp = false)
    (hid2 : strTruthy r2.id = false) (hsc2 : strTruthy r2.shortCode = false)
    (hts2 : natTruthy r2.timestamp = false)
    (htitle : itemTitle r1 = itemTitle r2) (hN : 1 ≤ N) :
    processPosts [some r1, some r2] N now = [mkPost r1 now] := by
  have k1 := dedupKey_falsy r1 (itemTitle r1) hid1 hsc1 hts1
  have k2 := dedupKey_falsy r2 (itemTitle r2) hid2 hsc2 hts2
  rw [processPosts, processPostsWith, processLoop, if_neg (by omega), if_pos h1,
    if_neg (by simp)]
  by_cases hN1 : N ≤ 1
  · rw [processLoop_break dedupKey now N _ 1 _ hN1]
    rfl
  · have hany : (([(dedupKey r1 (itemTitle r1), mkPost r1 now)] : List (DedupKey × Post)).any
        fun e => e.1 = dedupKey r2 (itemTitle r2)) = true := by
      rw [k1, k2, htitle]
      simp
    rw [processLoop, if_neg hN1, if_pos h2]
    simp only [List.nil_append]
    rw [if_pos hany, processLoop]
    rfl

/-- Witness for C10: a record with an empty caption and a record whose caption
starts with a line break (so both derived titles are empty) collapse to the
single Post of the first record, whose title is the empty string. -/
theorem processPosts_title_collision_collapses_witness :
    processPosts [some recEmptyCaption, some recLateCaption] 10 0 = [mkPost recEmptyCaption 0] ∧
    mkPost recEmptyCaption 0 =
      { id := none, title := "", caption := "", hashtags := [], timestamp := 0 } :=
  ⟨processPosts_title_collision_collapses recEmptyCaption recLateCaption 10 0
      rfl rfl rfl rfl rfl rfl rfl rfl (by decide) (by decide),
    by decide⟩

end Scraper
